import Mathlib

/-!
# Fizzlefade coordinate generator (`src/src/fizzlefade.c`)

A shallow embedding of `find_power` and of the generator part of `main`
(lines 52-84): the bounds check, the mask construction and the do-while loop
that steps a linear-feedback shift register and emits the in-range pairs.

Machine integers are `Nat` / `Int`.  `random_value`, `x_mask`, `y_mask`,
`x_bits`, `y_bits` are `uint32_t`; `x`, `y` are `uint16_t`; `res_x`, `res_y`
and the locals of `find_power` are `int` (32 bit).  Where a C operation can
leave the type's range, the model either reduces modulo the width (unsigned
arithmetic) or yields `none` (signed overflow and over-wide shifts, which C
leaves undefined).
-/

namespace Fizzlefade

/-! ## Constants -/

/-- The constant `#define MASK_BITS_SIZE 20`. -/
def MASK_BITS_SIZE : Nat := 20

/-- The constant `#define NIBBLE 4`. -/
def NIBBLE : Nat := 4

/-- Largest value of a 32 bit `int`. -/
def INT_MAX : Int := 2147483647

/-! ## `find_power` (lines 26-33) -/

/-- The `while` loop of `find_power`: `current_max_resolution` is doubled and
`power` incremented while `current_max_resolution < needed_resolution`.
`none` stands for a run the C standard leaves undefined (the doubling
overflows `int`) or for exhausted fuel. -/
def find_power_loop (needed_resolution : Int) : Nat → Int → Nat → Option Nat
  | 0, _, _ => none
  | fuel + 1, current_max_resolution, power =>
    if current_max_resolution < needed_resolution then
      if current_max_resolution * 2 > INT_MAX then none
      else find_power_loop needed_resolution fuel (current_max_resolution * 2) (power + 1)
    else some power

/-- The function `int find_power (int needed_resolution)`: starts from `power = 0`,
`current_max_resolution = 1`.  Thirty-two rounds of fuel are more than the
loop can use: the thirty-first doubling already overflows. -/
def find_power (needed_resolution : Int) : Option Nat :=
  find_power_loop needed_resolution 32 1 0

/-! ## Mask construction (lines 63-69) -/

/-- Right shift `v >> s` on a `uint32_t`; shifting by 32 or more is undefined. -/
def shr32 (v s : Nat) : Option Nat :=
  if s < 32 then some (v >>> s) else none

/-- Left shift `v << s` on a `uint32_t`; the result is reduced modulo `2^32`, shifting
by 32 or more is undefined. -/
def shl32 (v s : Nat) : Option Nat :=
  if s < 32 then some ((v <<< s) % 4294967296) else none

/-- Lines 63, 67, 68: `x_mask = 0xFFFFF; x_mask >>= (MASK_BITS_SIZE - x_bits);
x_mask <<= (x_bits / NIBBLE) * NIBBLE;` with the subtraction done in
`uint32_t`. -/
def make_x_mask (x_bits : Nat) : Option Nat :=
  match shr32 0xFFFFF ((MASK_BITS_SIZE + 4294967296 - x_bits) % 4294967296) with
  | none => none
  | some x_mask => shl32 x_mask ((x_bits / NIBBLE) * NIBBLE)

/-- Lines 63, 69: `y_mask = 0xFFFFF; y_mask >>= (MASK_BITS_SIZE - y_bits);`. -/
def make_y_mask (y_bits : Nat) : Option Nat :=
  shr32 0xFFFFF ((MASK_BITS_SIZE + 4294967296 - y_bits) % 4294967296)

/-! ## The generator loop (lines 71-84) -/

/-- Line 72: `y = random_value & y_mask;` stored in a `uint16_t`. -/
def extract_y (y_mask random_value : Nat) : Nat :=
  (random_value &&& y_mask) % 65536

/-- Line 73: `x = (random_value & x_mask) >> 8;` stored in a `uint16_t`. -/
def extract_x (x_mask random_value : Nat) : Nat :=
  ((random_value &&& x_mask) >>> 8) % 65536

/-- The register update of lines 74-78:
`least_significant_bit = random_value & 1; random_value >>= 1;
if (least_significant_bit) random_value ^= 0x00012000;`.
Neither operation can leave the 32 bit range. -/
def lfsr_step (random_value : Nat) : Nat :=
  let least_significant_bit := random_value &&& 1
  let random_value := random_value >>> 1
  if least_significant_bit ≠ 0 then random_value ^^^ 0x00012000 else random_value

/-- The loop `do { ... } while (random_value != 1);` of lines 71-84.  `out` is the list of
pairs printed so far, in order (the printed index `i` is its length).
`fuel` bounds the number of iterations; `none` means the loop has not
finished within `fuel` iterations. -/
def do_while (res_x res_y : Int) (x_mask y_mask : Nat) :
    Nat → Nat → List (Nat × Nat) → Option (List (Nat × Nat))
  | 0, _, _ => none
  | fuel + 1, random_value, out =>
    let y := extract_y y_mask random_value
    let x := extract_x x_mask random_value
    let random_value := lfsr_step random_value
    let out := if (x : Int) < res_x ∧ (y : Int) < res_y then out ++ [(x, y)] else out
    if random_value ≠ 1 then do_while res_x res_y x_mask y_mask fuel random_value out
    else some out

/-! ## `main`, lines 52-84 -/

/-- How the generator part of `main` ends. -/
inductive Outcome where
  /-- The bounds check of lines 52-55 printed its message and called `exit`. -/
  | bounds_exit : Outcome
  /-- The `fopen` failure branch of lines 59-62 was taken. -/
  | file_exit : Outcome
  /-- The run is undefined in C (overflow in `find_power`, over-wide shift). -/
  | undefined : Outcome
  /-- The do-while loop was entered and is still running when the fuel ends. -/
  | running : Outcome
  /-- The do-while loop was entered and left, having printed `coords`. -/
  | finished (coords : List (Nat × Nat)) : Outcome
  deriving DecidableEq

/-- Lines 52-84 of `main`.  `res_x`, `res_y` are the values `sscanf` stored
(the argument count and parsing checks of lines 36-51 come before and are not
part of the model), `file_opened` tells whether `fopen ("coordinates", "w")`
succeeded, `fuel` bounds the iterations of the do-while loop.  The pairs are
those of the `printf` of line 80; the normalised floats written to the file
are not modelled. -/
def main (res_x res_y : Int) (file_opened : Bool) (fuel : Nat) : Outcome :=
  if res_x < 0 ∨ res_x > 7680 ∨ res_y < 0 ∨ res_y > 7680 then Outcome.bounds_exit
  else if file_opened = false then Outcome.file_exit
  else
    match find_power res_x, find_power res_y with
    | some x_bits, some y_bits =>
      match make_x_mask x_bits, make_y_mask y_bits with
      | some x_mask, some y_mask =>
        match do_while res_x res_y x_mask y_mask fuel 1 [] with
        | some coords => Outcome.finished coords
        | none => Outcome.running
      | _, _ => Outcome.undefined
    | _, _ => Outcome.undefined

/-- Whether the do-while loop is entered. -/
def Outcome.loop_entered : Outcome → Bool
  | Outcome.running => true
  | Outcome.finished _ => true
  | _ => false

/-- The pairs printed by a finished run, none otherwise. -/
def Outcome.coords : Outcome → List (Nat × Nat)
  | Outcome.finished l => l
  | _ => []

/-! ## Auxiliary definitions used in the proofs -/

/-- Branch-free form of `lfsr_step`. -/
def step2 (rv : Nat) : Nat :=
  Nat.xor (Nat.shiftRight rv 1) (Nat.mul (Nat.land rv 1) 0x00012000)

/-- Sixteen register updates. -/
def step16 (r : Nat) : Nat :=
  step2 (step2 (step2 (step2 (step2 (step2 (step2 (step2
    (step2 (step2 (step2 (step2 (step2 (step2 (step2 (step2 r)))))))))))))))

/-- Runs `16 * 2^k` register updates by repeated doubling.  The `match` makes the
intermediate value a numeral before it is passed on. -/
def iter2 : Nat → Nat → Nat
  | 0, r => step16 r
  | k + 1, r =>
    match iter2 k r with
    | 0 => iter2 k 0
    | n + 1 => iter2 k (n + 1)

/-- Fifteen register updates. -/
def step15 (r : Nat) : Nat :=
  step2 (step2 (step2 (step2 (step2 (step2 (step2 (step2
    (step2 (step2 (step2 (step2 (step2 (step2 (step2 r))))))))))))))

/-- The register after `15 + 16 * (2^13 - 1) = 131071` updates from the seed. -/
def cycle_value : Nat :=
  iter2 12 (iter2 11 (iter2 10 (iter2 9 (iter2 8 (iter2 7 (iter2 6 (iter2 5
    (iter2 4 (iter2 3 (iter2 2 (iter2 1 (iter2 0 (step15 1)))))))))))))

/-- The register values at the start of the iterations of one full cycle. -/
def registers : List Nat := List.iterate lfsr_step 1 131071

/-- The test of line 79, `x < res_x && y < res_y`, on the pair extracted
from `random_value` (the `uint16_t` operands are promoted to `int`). -/
def in_bounds (res_x res_y : Int) (x_mask y_mask random_value : Nat) : Bool :=
  decide ((extract_x x_mask random_value : Int) < res_x) &&
    decide ((extract_y y_mask random_value : Int) < res_y)

/-- The pair `(x, y)` extracted from `random_value` at lines 72-73. -/
def extract (x_mask y_mask random_value : Nat) : Nat × Nat :=
  (extract_x x_mask random_value, extract_y y_mask random_value)

/-- The pairs the loop body prints while the register runs through `l`. -/
def emitted (res_x res_y : Int) (x_mask y_mask : Nat) (l : List Nat) : List (Nat × Nat) :=
  (l.filter (in_bounds res_x res_y x_mask y_mask)).map (extract x_mask y_mask)

/-! ## The register -/

theorem step2_eq (r : Nat) : step2 r = lfsr_step r := by
  show (r >>> 1) ^^^ ((r &&& 1) * 0x00012000) =
    if r &&& 1 ≠ 0 then (r >>> 1) ^^^ 0x00012000 else r >>> 1
  rcases Nat.mod_two_eq_zero_or_one r with h0 | h1
  · have h : r &&& 1 = 0 := by rw [Nat.and_one_is_mod]; exact h0
    simp [h]
  · have h : r &&& 1 = 1 := by rw [Nat.and_one_is_mod]; exact h1
    simp [h]

theorem step16_eq (r : Nat) : step16 r = lfsr_step^[16] r := by
  simp only [step16, step2_eq, Function.iterate_succ, Function.iterate_zero,
    Function.comp_apply, id_eq]

theorem step15_eq (r : Nat) : step15 r = lfsr_step^[15] r := by
  simp only [step15, step2_eq, Function.iterate_succ, Function.iterate_zero,
    Function.comp_apply, id_eq]

theorem iter2_eq (k : Nat) : ∀ r, iter2 k r = lfsr_step^[16 * 2 ^ k] r := by
  induction k with
  | zero => intro r; simp [iter2, step16_eq]
  | succ k ih =>
    intro r
    have h : iter2 (k + 1) r = iter2 k (iter2 k r) := by
      rw [iter2]
      cases iter2 k r <;> rfl
    rw [h, ih, ih, ← Function.iterate_add_apply]
    congr 1
    ring

set_option maxRecDepth 100000 in
theorem cycle_value_eq : cycle_value = 1 := by decide!

theorem iter2_iterate (k n m : Nat) (h : 16 * 2 ^ k + n = m) :
    iter2 k (lfsr_step^[n] 1) = lfsr_step^[m] 1 := by
  rw [iter2_eq, ← Function.iterate_add_apply, h]

theorem iterate_cycle : lfsr_step^[131071] 1 = 1 := by
  have e : cycle_value = lfsr_step^[131071] 1 := by
    unfold cycle_value
    rw [step15_eq, iter2_iterate 0 15 31 (by norm_num), iter2_iterate 1 31 63 (by norm_num),
      iter2_iterate 2 63 127 (by norm_num), iter2_iterate 3 127 255 (by norm_num),
      iter2_iterate 4 255 511 (by norm_num), iter2_iterate 5 511 1023 (by norm_num),
      iter2_iterate 6 1023 2047 (by norm_num), iter2_iterate 7 2047 4095 (by norm_num),
      iter2_iterate 8 4095 8191 (by norm_num), iter2_iterate 9 8191 16383 (by norm_num),
      iter2_iterate 10 16383 32767 (by norm_num), iter2_iterate 11 32767 65535 (by norm_num),
      iter2_iterate 12 65535 131071 (by norm_num)]
  rw [← e]
  exact cycle_value_eq

theorem lfsr_step_zero : lfsr_step 0 = 0 := by decide

theorem lfsr_step_lt {r : Nat} (h : r < 2 ^ 17) : lfsr_step r < 2 ^ 17 := by
  have h1 : r >>> 1 < 2 ^ 17 := by
    rw [Nat.shiftRight_eq_div_pow]
    exact lt_of_le_of_lt (Nat.div_le_self _ _) h
  unfold lfsr_step
  dsimp only
  split
  · exact Nat.xor_lt_two_pow h1 (by norm_num)
  · exact h1

theorem iterate_lt (k : Nat) : lfsr_step^[k] 1 < 2 ^ 17 := by
  induction k with
  | zero => norm_num
  | succ k ih =>
    rw [Function.iterate_succ_apply']
    exact lfsr_step_lt ih

theorem iterate_ne_zero (k : Nat) : lfsr_step^[k] 1 ≠ 0 := by
  intro h0
  have hz : ∀ m, lfsr_step^[m] 0 = 0 := fun m => Function.iterate_fixed lfsr_step_zero m
  have key : ∀ j, lfsr_step^[j * 131071] 1 = 1 := by
    intro j
    induction j with
    | zero => rw [Nat.zero_mul]; rfl
    | succ j ih => rw [Nat.succ_mul, Function.iterate_add_apply, iterate_cycle, ih]
  have hk : k ≤ (k + 1) * 131071 := by nlinarith
  have h1 := key (k + 1)
  obtain ⟨d, hd⟩ := Nat.exists_eq_add_of_le hk
  rw [hd, Nat.add_comm, Function.iterate_add_apply, h0, hz] at h1
  exact absurd h1 (by decide)

theorem minimalPeriod_one : Function.minimalPeriod lfsr_step 1 = 131071 := by
  haveI : Fact (Nat.Prime 131071) := ⟨by norm_num⟩
  apply Function.minimalPeriod_eq_prime
  · exact iterate_cycle
  · show lfsr_step 1 ≠ 1
    decide

theorem iterate_inj {i j : Nat} (hi : i < 131071) (hj : j < 131071)
    (h : lfsr_step^[i] 1 = lfsr_step^[j] 1) : i = j := by
  have hi' : i < Function.minimalPeriod lfsr_step 1 := by rw [minimalPeriod_one]; exact hi
  have hj' : j < Function.minimalPeriod lfsr_step 1 := by rw [minimalPeriod_one]; exact hj
  exact (Function.iterate_eq_iterate_iff_of_lt_minimalPeriod hi' hj').1 h

theorem iterate_ne_one {k : Nat} (h0 : 0 < k) (hk : k < 131071) : lfsr_step^[k] 1 ≠ 1 := by
  intro h
  have := iterate_inj hk (by norm_num : 0 < 131071) (by simpa using h)
  omega

theorem mem_registers {r : Nat} : r ∈ registers ↔ ∃ k, k < 131071 ∧ lfsr_step^[k] 1 = r := by
  unfold registers
  rw [List.mem_iterate]
  constructor
  · rintro ⟨m, hm, rfl⟩; exact ⟨m, hm, rfl⟩
  · rintro ⟨m, hm, rfl⟩; exact ⟨m, hm, rfl⟩

theorem registers_eq_map :
    registers = (List.range 131071).map (fun k => lfsr_step^[k] 1) :=
  (List.range_map_iterate 131071 lfsr_step 1).symm

theorem registers_nodup : registers.Nodup := by
  rw [registers_eq_map]
  apply List.Nodup.map_on _ (List.nodup_range _)
  intro i hi j hj h
  exact iterate_inj (List.mem_range.1 hi) (List.mem_range.1 hj) h

theorem registers_toFinset : registers.toFinset = Finset.Ico 1 (2 ^ 17) := by
  apply Finset.eq_of_subset_of_card_le
  · intro r hr
    rw [List.mem_toFinset, mem_registers] at hr
    obtain ⟨k, _, rfl⟩ := hr
    rw [Finset.mem_Ico]
    exact ⟨Nat.one_le_iff_ne_zero.2 (iterate_ne_zero k), iterate_lt k⟩
  · rw [List.toFinset_card_of_nodup registers_nodup, Nat.card_Ico, registers,
      List.length_iterate]
    norm_num

theorem mem_registers_iff {r : Nat} : r ∈ registers ↔ 1 ≤ r ∧ r < 2 ^ 17 := by
  rw [← List.mem_toFinset, registers_toFinset, Finset.mem_Ico]

/-! ## The loop -/

theorem emitted_cons (res_x res_y : Int) (x_mask y_mask r : Nat) (l : List Nat) :
    emitted res_x res_y x_mask y_mask (r :: l) =
      emitted res_x res_y x_mask y_mask [r] ++ emitted res_x res_y x_mask y_mask l := by
  unfold emitted
  rw [← List.map_append, ← List.filter_append]
  rfl

theorem emitted_singleton (res_x res_y : Int) (x_mask y_mask r : Nat) :
    emitted res_x res_y x_mask y_mask [r] =
      if (extract_x x_mask r : Int) < res_x ∧ (extract_y y_mask r : Int) < res_y then
        [(extract_x x_mask r, extract_y y_mask r)] else [] := by
  unfold emitted
  by_cases h : (extract_x x_mask r : Int) < res_x ∧ (extract_y y_mask r : Int) < res_y
  · have hb : in_bounds res_x res_y x_mask y_mask r = true := by
      simp [in_bounds, h.1, h.2]
    rw [if_pos h, List.filter_cons_of_pos hb]
    rfl
  · have hb : ¬ in_bounds res_x res_y x_mask y_mask r = true := by
      simpa [in_bounds] using h
    rw [if_neg h, List.filter_cons_of_neg hb]
    rfl

theorem do_while_succ (res_x res_y : Int) (x_mask y_mask fuel rv : Nat)
    (out : List (Nat × Nat)) :
    do_while res_x res_y x_mask y_mask (fuel + 1) rv out =
      if lfsr_step rv ≠ 1 then
        do_while res_x res_y x_mask y_mask fuel (lfsr_step rv)
          (out ++ emitted res_x res_y x_mask y_mask [rv])
      else some (out ++ emitted res_x res_y x_mask y_mask [rv]) := by
  rw [do_while, emitted_singleton]
  by_cases h : (extract_x x_mask rv : Int) < res_x ∧ (extract_y y_mask rv : Int) < res_y
  · rw [if_pos h, if_pos h]
  · rw [if_neg h, if_neg h, List.append_nil]

theorem do_while_some (res_x res_y : Int) (x_mask y_mask : Nat) :
    ∀ (n fuel rv : Nat) (out : List (Nat × Nat)), n < fuel →
      (∀ j, j < n → lfsr_step^[j + 1] rv ≠ 1) → lfsr_step^[n + 1] rv = 1 →
      do_while res_x res_y x_mask y_mask fuel rv out =
        some (out ++ emitted res_x res_y x_mask y_mask (List.iterate lfsr_step rv (n + 1))) := by
  intro n
  induction n with
  | zero =>
    intro fuel rv out hf _ hlast
    obtain ⟨f, rfl⟩ : ∃ f, fuel = f + 1 := ⟨fuel - 1, by omega⟩
    have h1 : lfsr_step rv = 1 := hlast
    rw [do_while_succ, if_neg (not_not.2 h1)]
    rfl
  | succ n ih =>
    intro fuel rv out hf hne hlast
    obtain ⟨f, rfl⟩ : ∃ f, fuel = f + 1 := ⟨fuel - 1, by omega⟩
    have h1 : lfsr_step rv ≠ 1 := hne 0 (Nat.succ_pos n)
    rw [do_while_succ, if_pos h1, ih f (lfsr_step rv) _ (by omega)
      (fun j hj => hne (j + 1) (by omega)) hlast]
    have e : List.iterate lfsr_step rv (n + 1 + 1) =
        rv :: List.iterate lfsr_step (lfsr_step rv) (n + 1) := rfl
    rw [e, emitted_cons _ _ _ _ rv (List.iterate lfsr_step (lfsr_step rv) (n + 1)),
      List.append_assoc]

theorem do_while_none (res_x res_y : Int) (x_mask y_mask : Nat) :
    ∀ (fuel rv : Nat) (out : List (Nat × Nat)),
      (∀ j, j < fuel → lfsr_step^[j + 1] rv ≠ 1) →
      do_while res_x res_y x_mask y_mask fuel rv out = none := by
  intro fuel
  induction fuel with
  | zero => intro rv out _; rfl
  | succ f ih =>
    intro rv out hne
    have h1 : lfsr_step rv ≠ 1 := hne 0 (Nat.succ_pos f)
    rw [do_while_succ, if_pos h1]
    exact ih _ _ (fun j hj => hne (j + 1) (by omega))

theorem do_while_seed (res_x res_y : Int) (x_mask y_mask fuel : Nat)
    (out : List (Nat × Nat)) :
    do_while res_x res_y x_mask y_mask fuel 1 out =
      if 131071 ≤ fuel then some (out ++ emitted res_x res_y x_mask y_mask registers)
      else none := by
  by_cases h : 131071 ≤ fuel
  · rw [if_pos h]
    exact do_while_some res_x res_y x_mask y_mask 131070 fuel 1 out (by omega)
      (fun j hj => iterate_ne_one (Nat.succ_pos j) (by omega)) iterate_cycle
  · rw [if_neg h]
    exact do_while_none res_x res_y x_mask y_mask fuel 1 out
      (fun j hj => iterate_ne_one (Nat.succ_pos j) (by omega))

theorem mem_emitted {res_x res_y : Int} {x_mask y_mask : Nat} {l : List Nat} {p : Nat × Nat} :
    p ∈ emitted res_x res_y x_mask y_mask l ↔
      ∃ r, r ∈ l ∧ (extract_x x_mask r : Int) < res_x ∧ (extract_y y_mask r : Int) < res_y ∧
        extract x_mask y_mask r = p := by
  unfold emitted
  simp only [List.mem_map, List.mem_filter, in_bounds, Bool.and_eq_true, decide_eq_true_eq]
  constructor
  · rintro ⟨r, ⟨hr, hx, hy⟩, rfl⟩; exact ⟨r, hr, hx, hy, rfl⟩
  · rintro ⟨r, hr, hx, hy, rfl⟩; exact ⟨r, ⟨hr, hx, hy⟩, rfl⟩

/-! ## `find_power` -/

theorem find_power_loop_eq (needed : Int) (p : Nat) (hp : p ≤ 30)
    (hlow : 1 ≤ p → (2 : Int) ^ (p - 1) < needed) (hhigh : needed ≤ (2 : Int) ^ p) :
    ∀ (d fuel k : Nat), k + d = p → d < fuel →
      find_power_loop needed fuel ((2 : Int) ^ k) k = some p := by
  intro d
  induction d with
  | zero =>
    intro fuel k hk hf
    obtain ⟨f, rfl⟩ : ∃ f, fuel = f + 1 := ⟨fuel - 1, by omega⟩
    have hkp : k = p := by omega
    subst hkp
    rw [find_power_loop, if_neg (not_lt.2 hhigh)]
  | succ d ih =>
    intro fuel k hk hf
    obtain ⟨f, rfl⟩ : ∃ f, fuel = f + 1 := ⟨fuel - 1, by omega⟩
    have h1 : (2 : Int) ^ k ≤ (2 : Int) ^ (p - 1) :=
      pow_le_pow_right₀ (by norm_num) (by omega)
    have h2 : (2 : Int) ^ k < needed := lt_of_le_of_lt h1 (hlow (by omega))
    have h3 : (2 : Int) ^ (k + 1) ≤ (2 : Int) ^ 30 :=
      pow_le_pow_right₀ (by norm_num) (by omega)
    have h4 : ¬ (2 : Int) ^ k * 2 > INT_MAX := by
      rw [← pow_succ]
      unfold INT_MAX
      norm_num at h3 ⊢
      omega
    rw [find_power_loop, if_pos h2, if_neg h4, ← pow_succ]
    exact ih f (k + 1) (by omega) (by omega)

theorem find_power_eq (needed : Int) (p : Nat) (hp : p ≤ 30)
    (hlow : 1 ≤ p → (2 : Int) ^ (p - 1) < needed) (hhigh : needed ≤ (2 : Int) ^ p) :
    find_power needed = some p := by
  have h := find_power_loop_eq needed p hp hlow hhigh p 32 0 (by omega) (by omega)
  rw [pow_zero] at h
  exact h

theorem find_power_valid (n : Int) (hn : n ≤ 7680) :
    ∃ p, p ≤ 13 ∧ find_power n = some p ∧ n ≤ (2 : Int) ^ p ∧
      (1 ≤ p → (2 : Int) ^ (p - 1) < n) := by
  by_cases h1 : n ≤ 1
  · refine ⟨0, by norm_num, find_power_eq n 0 (by norm_num) (fun h => by omega) ?_, ?_,
      fun h => by omega⟩
    · simpa using h1
    · simpa using h1
  · have h2 : 1 < n := lt_of_not_ge h1
    obtain ⟨m, rfl⟩ : ∃ m : Nat, n = (m : Int) := ⟨n.toNat, by omega⟩
    have hm : 1 < m := by exact_mod_cast h2
    have hm7 : m ≤ 7680 := by exact_mod_cast hn
    have hp13 : Nat.clog 2 m ≤ 13 :=
      (Nat.le_pow_iff_clog_le (by norm_num)).1 (le_trans hm7 (by norm_num))
    have hle : m ≤ 2 ^ Nat.clog 2 m := Nat.le_pow_clog (by norm_num) m
    have hlt : 2 ^ (Nat.clog 2 m - 1) < m := Nat.pow_pred_clog_lt_self (by norm_num) hm
    have hle' : (m : Int) ≤ (2 : Int) ^ Nat.clog 2 m := by exact_mod_cast hle
    have hlt' : (2 : Int) ^ (Nat.clog 2 m - 1) < (m : Int) := by exact_mod_cast hlt
    exact ⟨Nat.clog 2 m, hp13, find_power_eq _ _ (by omega) (fun _ => hlt') hle', hle',
      fun _ => hlt'⟩

/-! ## Masks -/

theorem make_y_mask_eq (y_bits : Nat) (h : y_bits ≤ 13) :
    make_y_mask y_bits = some (2 ^ y_bits - 1) := by
  interval_cases y_bits <;> rfl

theorem make_x_mask_eq (x_bits : Nat) (h : x_bits ≤ 13) :
    make_x_mask x_bits = some ((2 ^ x_bits - 1) * 2 ^ ((x_bits / 4) * 4)) := by
  interval_cases x_bits <;> rfl

/-! ## `main` -/

theorem main_of_masks {res_x res_y : Int} {x_bits y_bits x_mask y_mask : Nat}
    (hx0 : 0 ≤ res_x) (hx : res_x ≤ 7680) (hy0 : 0 ≤ res_y) (hy : res_y ≤ 7680)
    (hxb : find_power res_x = some x_bits) (hyb : find_power res_y = some y_bits)
    (hxm : make_x_mask x_bits = some x_mask) (hym : make_y_mask y_bits = some y_mask)
    (fuel : Nat) :
    main res_x res_y true fuel =
      if 131071 ≤ fuel then Outcome.finished (emitted res_x res_y x_mask y_mask registers)
      else Outcome.running := by
  have hb : ¬ (res_x < 0 ∨ res_x > 7680 ∨ res_y < 0 ∨ res_y > 7680) := by omega
  unfold main
  rw [if_neg hb, if_neg (by decide), hxb, hyb]
  dsimp only
  rw [hxm, hym]
  dsimp only
  rw [do_while_seed, List.nil_append]
  by_cases hf : 131071 ≤ fuel
  · rw [if_pos hf, if_pos hf]
  · rw [if_neg hf, if_neg hf]

theorem main_valid (res_x res_y : Int)
    (hx0 : 0 ≤ res_x) (hx : res_x ≤ 7680) (hy0 : 0 ≤ res_y) (hy : res_y ≤ 7680) :
    ∃ x_bits y_bits x_mask y_mask,
      find_power res_x = some x_bits ∧ find_power res_y = some y_bits ∧
      make_x_mask x_bits = some x_mask ∧ make_y_mask y_bits = some y_mask ∧
      ∀ fuel, main res_x res_y true fuel =
        if 131071 ≤ fuel then Outcome.finished (emitted res_x res_y x_mask y_mask registers)
        else Outcome.running := by
  obtain ⟨xb, hxb13, hxb, -, -⟩ := find_power_valid res_x hx
  obtain ⟨yb, hyb13, hyb, -, -⟩ := find_power_valid res_y hy
  exact ⟨xb, yb, _, _, hxb, hyb, make_x_mask_eq xb hxb13, make_y_mask_eq yb hyb13,
    fun fuel => main_of_masks hx0 hx hy0 hy hxb hyb (make_x_mask_eq xb hxb13)
      (make_y_mask_eq yb hyb13) fuel⟩

theorem main_invalid {res_x res_y : Int}
    (h : res_x < 0 ∨ res_x > 7680 ∨ res_y < 0 ∨ res_y > 7680) (file_opened : Bool)
    (fuel : Nat) : main res_x res_y file_opened fuel = Outcome.bounds_exit := by
  unfold main
  rw [if_pos h]

theorem main_no_file {res_x res_y : Int}
    (h : ¬ (res_x < 0 ∨ res_x > 7680 ∨ res_y < 0 ∨ res_y > 7680)) (fuel : Nat) :
    main res_x res_y false fuel = Outcome.file_exit := by
  unfold main
  rw [if_neg h, if_pos rfl]

theorem mem_coords_main {res_x res_y : Int} {file_opened : Bool} {fuel : Nat}
    {p : Nat × Nat} (hp : p ∈ (main res_x res_y file_opened fuel).coords) :
    ∃ x_bits y_bits x_mask y_mask,
      find_power res_x = some x_bits ∧ find_power res_y = some y_bits ∧
      make_x_mask x_bits = some x_mask ∧ make_y_mask y_bits = some y_mask ∧
      p ∈ emitted res_x res_y x_mask y_mask registers := by
  by_cases hb : res_x < 0 ∨ res_x > 7680 ∨ res_y < 0 ∨ res_y > 7680
  · rw [main_invalid hb] at hp
    exact absurd hp (List.not_mem_nil p)
  · cases file_opened with
    | false =>
      rw [main_no_file hb] at hp
      exact absurd hp (List.not_mem_nil p)
    | true =>
      obtain ⟨xb, yb, xm, ym, h1, h2, h3, h4, hm⟩ :=
        main_valid res_x res_y (by omega) (by omega) (by omega) (by omega)
      refine ⟨xb, yb, xm, ym, h1, h2, h3, h4, ?_⟩
      rw [hm fuel] at hp
      by_cases hf : 131071 ≤ fuel
      · rw [if_pos hf] at hp
        exact hp
      · rw [if_neg hf] at hp
        exact absurd hp (List.not_mem_nil p)

theorem extract_x_small (x_mask rv : Nat) (h : x_mask < 256) : extract_x x_mask rv = 0 := by
  unfold extract_x
  rw [Nat.shiftRight_eq_div_pow,
    Nat.div_eq_of_lt (lt_of_le_of_lt Nat.and_le_right (by simpa using h))]

theorem one_mem_registers : 1 ∈ registers :=
  mem_registers_iff.2 ⟨le_refl 1, by norm_num⟩

theorem emitted_eq_nil {res_x res_y : Int} (h : res_x ≤ 0 ∨ res_y ≤ 0)
    (x_mask y_mask : Nat) (l : List Nat) : emitted res_x res_y x_mask y_mask l = [] := by
  rw [List.eq_nil_iff_forall_not_mem]
  intro p hp
  obtain ⟨r, -, hx, hy, -⟩ := mem_emitted.1 hp
  omega

theorem emitted_length {res_x res_y : Int} {x_mask y_mask : Nat} {l : List Nat}
    (h : ∀ r, r ∈ l → in_bounds res_x res_y x_mask y_mask r = true) :
    (emitted res_x res_y x_mask y_mask l).length = l.length := by
  unfold emitted
  rw [List.length_map, List.filter_eq_self.2 h]

theorem registers_length : registers.length = 131071 := by
  unfold registers
  rw [List.length_iterate]

theorem extract_y_le (y_mask rv : Nat) : extract_y y_mask rv ≤ y_mask := by
  unfold extract_y
  exact le_trans (Nat.mod_le _ _) Nat.and_le_right

theorem find_power_4 : find_power 4 = some 2 := by decide

theorem find_power_1 : find_power 1 = some 0 := by decide

theorem find_power_320 : find_power 320 = some 9 := by decide

theorem find_power_200 : find_power 200 = some 8 := by decide

theorem main_4_4 :
    main 4 4 true 131071 = Outcome.finished (emitted 4 4 3 3 registers) := by
  rw [main_of_masks (by norm_num) (by norm_num) (by norm_num) (by norm_num)
    find_power_4 find_power_4 (by rfl : make_x_mask 2 = some 3)
    (by rfl : make_y_mask 2 = some 3) 131071, if_pos (le_refl _)]

theorem main_1_1 :
    main 1 1 true 131071 = Outcome.finished (emitted 1 1 0 0 registers) := by
  rw [main_of_masks (by norm_num) (by norm_num) (by norm_num) (by norm_num)
    find_power_1 find_power_1 (by rfl : make_x_mask 0 = some 0)
    (by rfl : make_y_mask 0 = some 0) 131071, if_pos (le_refl _)]

theorem main_320_200 :
    main 320 200 true 131071 = Outcome.finished (emitted 320 200 130816 255 registers) := by
  rw [main_of_masks (by norm_num) (by norm_num) (by norm_num) (by norm_num)
    find_power_320 find_power_200 (by rfl : make_x_mask 9 = some 130816)
    (by rfl : make_y_mask 8 = some 255) 131071, if_pos (le_refl _)]

theorem mem_coords_320_200 : (0, 1) ∈ (main 320 200 true 131071).coords := by
  rw [main_320_200]
  exact mem_emitted.2 ⟨1, one_mem_registers, by decide, by decide, by decide⟩

theorem extract_y_255 (rv : Nat) : extract_y 255 rv = rv % 256 := by
  have h := Nat.and_pow_two_sub_one_eq_mod rv 8
  norm_num at h
  unfold extract_y
  rw [h]
  omega

theorem extract_x_130816 (rv : Nat) (hr : rv < 2 ^ 17) : extract_x 130816 rv = rv / 256 := by
  have e : (rv &&& 130816) >>> 8 = (rv / 256) % 512 := by
    have h1 : (130816 : Nat) = (2 ^ 9 - 1) <<< 8 := by decide
    have h2 : rv / 256 = rv >>> 8 := by rw [Nat.shiftRight_eq_div_pow]
    have h3 : (512 : Nat) = 2 ^ 9 := by norm_num
    rw [h1, h2, h3]
    apply Nat.eq_of_testBit_eq
    intro i
    simp only [Nat.testBit_shiftRight, Nat.testBit_and, Nat.testBit_shiftLeft,
      Nat.testBit_two_pow_sub_one, Nat.testBit_mod_two_pow]
    by_cases h : i < 9 <;> simp [h]
  unfold extract_x
  rw [e]
  norm_num at hr
  omega

theorem mem_emitted_classic {res_x res_y : Int} (hx : res_x ≤ 512) (hy : res_y ≤ 256)
    (x y : Nat) :
    (x, y) ∈ emitted res_x res_y 130816 255 registers ↔
      ((x : Int) < res_x ∧ (y : Int) < res_y ∧ (x, y) ≠ (0, 0)) := by
  rw [mem_emitted]
  constructor
  · rintro ⟨r, hr, hbx, hby, he⟩
    obtain ⟨h1, h17⟩ := mem_registers_iff.1 hr
    rw [extract_x_130816 r h17] at hbx
    rw [extract_y_255] at hby
    unfold extract at he
    rw [extract_x_130816 r h17, extract_y_255, Prod.mk.injEq] at he
    obtain ⟨rfl, rfl⟩ := he
    refine ⟨hbx, hby, ?_⟩
    rw [Ne, Prod.mk.injEq]
    omega
  · rintro ⟨hbx, hby, hne⟩
    rw [Ne, Prod.mk.injEq] at hne
    have h17 : 256 * x + y < 2 ^ 17 := by norm_num; omega
    have hxe : (256 * x + y) / 256 = x := by omega
    have hye : (256 * x + y) % 256 = y := by omega
    refine ⟨256 * x + y, mem_registers_iff.2 ⟨by omega, h17⟩, ?_, ?_, ?_⟩
    · rw [extract_x_130816 _ h17, hxe]; exact hbx
    · rw [extract_y_255, hye]; exact hby
    · unfold extract
      rw [extract_x_130816 _ h17, extract_y_255, hxe, hye]

theorem emitted_classic_nodup (res_x res_y : Int) :
    (emitted res_x res_y 130816 255 registers).Nodup := by
  unfold emitted
  apply List.Nodup.map_on _ (registers_nodup.filter _)
  intro a ha b hb hab
  have ha17 := (mem_registers_iff.1 (List.mem_filter.1 ha).1).2
  have hb17 := (mem_registers_iff.1 (List.mem_filter.1 hb).1).2
  unfold extract at hab
  rw [extract_x_130816 a ha17, extract_x_130816 b hb17, extract_y_255, extract_y_255,
    Prod.mk.injEq] at hab
  omega

theorem emitted_classic_length (W H : Nat) (hW : W ≤ 512) (hH : H ≤ 256)
    (hW0 : 0 < W) (hH0 : 0 < H) :
    (emitted (W : Int) (H : Int) 130816 255 registers).length = W * H - 1 := by
  have hfin : (emitted (W : Int) (H : Int) 130816 255 registers).toFinset =
      (Finset.range W ×ˢ Finset.range H).erase (0, 0) := by
    ext ⟨x, y⟩
    rw [List.mem_toFinset, mem_emitted_classic (by exact_mod_cast hW) (by exact_mod_cast hH),
      Finset.mem_erase, Finset.mem_product, Finset.mem_range, Finset.mem_range]
    constructor
    · rintro ⟨h1, h2, h3⟩
      exact ⟨h3, by exact_mod_cast h1, by exact_mod_cast h2⟩
    · rintro ⟨h3, h1, h2⟩
      exact ⟨by exact_mod_cast h1, by exact_mod_cast h2, h3⟩
  have hmem : ((0, 0) : Nat × Nat) ∈ Finset.range W ×ˢ Finset.range H := by
    rw [Finset.mem_product, Finset.mem_range, Finset.mem_range]
    exact ⟨hW0, hH0⟩
  rw [← List.toFinset_card_of_nodup (emitted_classic_nodup _ _), hfin,
    Finset.card_erase_of_mem hmem, Finset.card_product, Finset.card_range, Finset.card_range]

/-! ## The claims -/

/-- C5: for every integer `n ≤ 7680`, `find_power n` returns (its loop ends and
no doubling overflows `int`) the least `p` with `n ≤ 2^p`; for `n ≥ 2` also
`2^(p-1) < n`, and for `n ≤ 1` (so for 0 and 1) it returns 0. -/
theorem find_power_spec (n : Int) (hn : n ≤ 7680) :
    ∃ p, find_power n = some p ∧ n ≤ (2 : Int) ^ p ∧
      (∀ q : Nat, n ≤ (2 : Int) ^ q → p ≤ q) ∧
      (2 ≤ n → (2 : Int) ^ (p - 1) < n) ∧ (n ≤ 1 → p = 0) := by
  obtain ⟨p, -, hfp, hle, hlt⟩ := find_power_valid n hn
  have hleast : ∀ q : Nat, n ≤ (2 : Int) ^ q → p ≤ q := by
    intro q hq
    by_contra hpq
    have h1 : (2 : Int) ^ q ≤ (2 : Int) ^ (p - 1) :=
      pow_le_pow_right₀ (by norm_num) (by omega)
    have h2 := hlt (by omega)
    omega
  refine ⟨p, hfp, hle, hleast, ?_, ?_⟩
  · intro h2
    apply hlt
    by_contra hp
    have hp0 : p = 0 := by omega
    rw [hp0, pow_zero] at hle
    omega
  · intro h1
    have := hleast 0 (by simpa using h1)
    omega

/-- Witness for C5 at `n = 320`. -/
theorem find_power_spec_witness :
    ∃ p, find_power 320 = some p ∧ (320 : Int) ≤ (2 : Int) ^ p ∧
      (∀ q : Nat, (320 : Int) ≤ (2 : Int) ^ q → p ≤ q) ∧
      ((2 : Int) ≤ 320 → (2 : Int) ^ (p - 1) < 320) ∧ ((320 : Int) ≤ 1 → p = 0) :=
  find_power_spec 320 (by norm_num)

/-- C4: starting from the seed 1 the register is never 0: no iterate of the
update is 0, and the update sends every value the register takes (these are
the nonzero values below `2^17`) to a nonzero value. -/
theorem register_never_zero :
    (∀ k, lfsr_step^[k] 1 ≠ 0) ∧
      (∀ r, r ∈ registers → r ≠ 0 ∧ lfsr_step r ≠ 0) ∧
      (∀ r, r ≠ 0 → r < 2 ^ 17 → lfsr_step r ≠ 0) := by
  have key : ∀ r, r ∈ registers → r ≠ 0 ∧ lfsr_step r ≠ 0 := by
    intro r hr
    obtain ⟨k, -, rfl⟩ := mem_registers.1 hr
    refine ⟨iterate_ne_zero k, ?_⟩
    have h := iterate_ne_zero (k + 1)
    rw [Function.iterate_succ_apply'] at h
    exact h
  refine ⟨iterate_ne_zero, key, ?_⟩
  intro r h0 h17
  exact (key r (mem_registers_iff.2 ⟨Nat.one_le_iff_ne_zero.2 h0, h17⟩)).2

/-- C3 (as stated, refuted): the register does not first return to 1 after
`2^20 - 1 = 1048575` updates. -/
theorem first_return_not_1048575 :
    ¬ (lfsr_step^[1048575] 1 = 1 ∧ ∀ k, 0 < k → k < 1048575 → lfsr_step^[k] 1 ≠ 1) := by
  rintro ⟨-, h⟩
  exact h 131071 (by norm_num) (by norm_num) iterate_cycle

/-- C3 (amended): starting from the seed 1, the register update first returns
to 1 after exactly `2^17 - 1 = 131071` updates; the update reads neither
width nor height. -/
theorem first_return_131071 :
    lfsr_step^[131071] 1 = 1 ∧ ∀ k, 0 < k → k < 131071 → lfsr_step^[k] 1 ≠ 1 :=
  ⟨iterate_cycle, fun _ h0 hk => iterate_ne_one h0 hk⟩

/-- C8: whatever the bounds and masks, the do-while loop started at the seed 1
ends after exactly 131071 iterations (it has a result exactly when the fuel
is at least 131071); the register stays below `2^17`, takes every value of
`[1, 2^17)` exactly once in a cycle, and is back at 1 for the first time
after 131071 updates. -/
theorem loop_iterations (res_x res_y : Int) (x_mask y_mask fuel : Nat)
    (out : List (Nat × Nat)) :
    ((do_while res_x res_y x_mask y_mask fuel 1 out).isSome = true ↔ 131071 ≤ fuel) ∧
      (∀ k, lfsr_step^[k] 1 < 2 ^ 17) ∧
      (∀ r, 1 ≤ r → r < 2 ^ 17 → ∃! k, k < 131071 ∧ lfsr_step^[k] 1 = r) ∧
      lfsr_step^[131071] 1 = 1 ∧
      (∀ k, 0 < k → k < 131071 → lfsr_step^[k] 1 ≠ 1) := by
  refine ⟨?_, iterate_lt, ?_, iterate_cycle, fun _ h0 hk => iterate_ne_one h0 hk⟩
  · rw [do_while_seed]
    by_cases hf : 131071 ≤ fuel
    · rw [if_pos hf]
      exact ⟨fun _ => hf, fun _ => rfl⟩
    · rw [if_neg hf]
      exact ⟨fun h => absurd h (by decide), fun h => absurd h hf⟩
  · intro r h1 h17
    obtain ⟨k, hk, hkr⟩ := mem_registers.1 (mem_registers_iff.2 ⟨h1, h17⟩)
    refine ⟨k, ⟨hk, hkr⟩, ?_⟩
    rintro j ⟨hj, hjr⟩
    exact iterate_inj hj hk (hjr.trans hkr.symm)

/-- C2: every pair printed by a run satisfies `x < res_x` and `y < res_y`
(for all inputs, so in particular for width and height in `[0, 7680]`), and
an iteration whose extracted pair is out of range leaves the output
unchanged. -/
theorem emitted_in_bounds (res_x res_y : Int) (file_opened : Bool) (fuel : Nat)
    (p : Nat × Nat) (hp : p ∈ (main res_x res_y file_opened fuel).coords) :
    ((p.1 : Int) < res_x ∧ (p.2 : Int) < res_y) ∧
      ∀ (x_mask y_mask f rv : Nat) (out : List (Nat × Nat)),
        ¬ ((extract_x x_mask rv : Int) < res_x ∧ (extract_y y_mask rv : Int) < res_y) →
        do_while res_x res_y x_mask y_mask (f + 1) rv out =
          if lfsr_step rv ≠ 1 then do_while res_x res_y x_mask y_mask f (lfsr_step rv) out
          else some out := by
  constructor
  · obtain ⟨_, _, xm, ym, -, -, -, -, hm⟩ := mem_coords_main hp
    obtain ⟨r, -, hx, hy, rfl⟩ := mem_emitted.1 hm
    exact ⟨hx, hy⟩
  · intro x_mask y_mask f rv out h
    rw [do_while_succ, emitted_singleton, if_neg h, List.append_nil]

/-- Witness for C2: the pair `(0, 1)` printed by the 320 x 200 run. -/
theorem emitted_in_bounds_witness :
    (0, 1) ∈ (main 320 200 true 131071).coords ∧
      ((((0, 1) : Nat × Nat).1 : Int) < 320 ∧ (((0, 1) : Nat × Nat).2 : Int) < 200) :=
  ⟨mem_coords_320_200,
    (emitted_in_bounds 320 200 true 131071 (0, 1) mem_coords_320_200).1⟩

/-- C7 (as stated, refuted): with width 0 the bounds check does not reject;
the loop is entered, runs its full cycle and prints nothing. -/
theorem zero_width_not_rejected : main 0 5 true 131071 = Outcome.finished [] := by
  rw [main_of_masks (by norm_num) (by norm_num) (by norm_num) (by norm_num)
    (by decide : find_power 0 = some 0) (by decide : find_power 5 = some 3)
    (by rfl : make_x_mask 0 = some 0) (by rfl : make_y_mask 3 = some 7) 131071,
    if_pos (le_refl _), emitted_eq_nil (Or.inl (le_refl _))]

/-- C7 (amended): the bounds check rejects exactly the inputs with width or
height outside `[0, 7680]`; for every other input, zero included, the loop
is entered once the output file is open, and with width or height 0 the
finished run has printed nothing. -/
theorem bounds_check (res_x res_y : Int) (file_opened : Bool) (fuel : Nat) :
    (main res_x res_y file_opened fuel = Outcome.bounds_exit ↔
        (res_x < 0 ∨ res_x > 7680 ∨ res_y < 0 ∨ res_y > 7680)) ∧
      ((main res_x res_y file_opened fuel).loop_entered = true ↔
        (0 ≤ res_x ∧ res_x ≤ 7680 ∧ 0 ≤ res_y ∧ res_y ≤ 7680 ∧ file_opened = true)) ∧
      ((res_x = 0 ∨ res_y = 0) → 0 ≤ res_x → res_x ≤ 7680 → 0 ≤ res_y → res_y ≤ 7680 →
        file_opened = true → 131071 ≤ fuel →
        main res_x res_y file_opened fuel = Outcome.finished []) := by
  by_cases hb : res_x < 0 ∨ res_x > 7680 ∨ res_y < 0 ∨ res_y > 7680
  · rw [main_invalid hb]
    refine ⟨⟨fun _ => hb, fun _ => rfl⟩, ⟨fun h => absurd h (by decide), fun h => ?_⟩, ?_⟩
    · omega
    · intros; omega
  · cases file_opened with
    | false =>
      rw [main_no_file hb]
      refine ⟨⟨fun h => absurd h (by decide), fun h => absurd h hb⟩,
        ⟨fun h => absurd h (by decide), fun h => absurd h.2.2.2.2 (by decide)⟩, ?_⟩
      intro _ _ _ _ _ h
      exact absurd h (by decide)
    | true =>
      obtain ⟨xb, yb, xm, ym, -, -, -, -, hm⟩ :=
        main_valid res_x res_y (by omega) (by omega) (by omega) (by omega)
      rw [hm fuel]
      by_cases hf : 131071 ≤ fuel
      · rw [if_pos hf]
        refine ⟨⟨fun h => absurd h (by simp), fun h => absurd h hb⟩,
          ⟨fun _ => ⟨by omega, by omega, by omega, by omega, rfl⟩, fun _ => rfl⟩, ?_⟩
        intro hz _ _ _ _ _ _
        rw [emitted_eq_nil (by omega)]
      · rw [if_neg hf]
        refine ⟨⟨fun h => absurd h (by simp), fun h => absurd h hb⟩,
          ⟨fun _ => ⟨by omega, by omega, by omega, by omega, rfl⟩, fun _ => rfl⟩, ?_⟩
        intro _ _ _ _ _ _ h
        exact absurd h hf

/-- C10: for every width in `[0, 16]` and every height, `x_bits ≤ 4`, the
`x_mask` lies below bit 8, so the `x` extracted from any register value is
0; hence every printed pair has `x = 0` (no cell with `x ≥ 1` is printed). -/
theorem narrow_width_x_zero (res_x res_y : Int) (file_opened : Bool) (fuel : Nat)
    (h0 : 0 ≤ res_x) (h16 : res_x ≤ 16) :
    (∃ x_bits x_mask, find_power res_x = some x_bits ∧ x_bits ≤ 4 ∧
        make_x_mask x_bits = some x_mask ∧ x_mask < 256 ∧
        ∀ rv, extract_x x_mask rv = 0) ∧
      ∀ p, p ∈ (main res_x res_y file_opened fuel).coords → p.1 = 0 := by
  obtain ⟨xb, hxb13, hxb, hle, hlt⟩ := find_power_valid res_x (by omega)
  have hxb4 : xb ≤ 4 := by
    by_contra h
    have h1 : (2 : Int) ^ 4 ≤ (2 : Int) ^ (xb - 1) :=
      pow_le_pow_right₀ (by norm_num) (by omega)
    have h2 := hlt (by omega)
    norm_num at h1
    omega
  have hmask : (2 ^ xb - 1) * 2 ^ ((xb / 4) * 4) < 256 := by
    interval_cases xb <;> norm_num
  refine ⟨⟨xb, _, hxb, hxb4, make_x_mask_eq xb hxb13, hmask,
    fun rv => extract_x_small _ rv hmask⟩, ?_⟩
  intro p hp
  obtain ⟨xb', _, xm, ym, h1, -, h3, -, hm⟩ := mem_coords_main hp
  obtain ⟨r, -, -, -, rfl⟩ := mem_emitted.1 hm
  rw [hxb] at h1
  obtain rfl : xb = xb' := Option.some.inj h1
  rw [make_x_mask_eq xb hxb13] at h3
  obtain rfl := Option.some.inj h3
  exact extract_x_small _ r hmask

/-- Witness for C10 at width 4, height 4. -/
theorem narrow_width_x_zero_witness :
    (∃ x_bits x_mask, find_power 4 = some x_bits ∧ x_bits ≤ 4 ∧
        make_x_mask x_bits = some x_mask ∧ x_mask < 256 ∧
        ∀ rv, extract_x x_mask rv = 0) ∧
      ∀ p, p ∈ (main 4 4 true 131071).coords → p.1 = 0 :=
  narrow_width_x_zero 4 4 true 131071 (by norm_num) (by norm_num)

/-- C1 (the code at two inputs the claim names): for width 4, height 4 the
finished run prints 131071 pairs, every one with `x = 0`, so `(1, 0)` is
never printed; for width 1, height 1 it prints `(0, 0)` 131071 times. -/
theorem small_grids_output :
    (∃ l, main 4 4 true 131071 = Outcome.finished l ∧ l.length = 131071 ∧
        (∀ p, p ∈ l → p.1 = 0) ∧ (1, 0) ∉ l) ∧
      main 1 1 true 131071 = Outcome.finished (List.replicate 131071 (0, 0)) := by
  have hx3 : ∀ r, extract_x 3 r = 0 := fun r => extract_x_small 3 r (by norm_num)
  have hx0 : ∀ r, extract_x 0 r = 0 := fun r => extract_x_small 0 r (by norm_num)
  have hy0 : ∀ r, extract_y 0 r = 0 := fun r => Nat.le_zero.1 (extract_y_le 0 r)
  constructor
  · refine ⟨_, main_4_4, ?_, ?_, ?_⟩
    · rw [emitted_length, registers_length]
      intro r _
      have hy := extract_y_le 3 r
      simp only [in_bounds, hx3, Bool.and_eq_true, decide_eq_true_eq]
      constructor
      · norm_num
      · omega
    · intro p hp
      obtain ⟨r, -, -, -, rfl⟩ := mem_emitted.1 hp
      exact hx3 r
    · intro hp
      obtain ⟨r, -, -, -, hr⟩ := mem_emitted.1 hp
      have := congrArg Prod.fst hr
      simp only [extract, hx3] at this
      omega
  · rw [main_1_1]
    refine congrArg Outcome.finished (List.eq_replicate_iff.2 ⟨?_, ?_⟩)
    · rw [emitted_length, registers_length]
      intro r _
      simp only [in_bounds, hx0, hy0, Bool.and_eq_true, decide_eq_true_eq]
      constructor <;> norm_num
    · intro p hp
      obtain ⟨r, -, -, -, rfl⟩ := mem_emitted.1 hp
      simp only [extract, hx0, hy0]

/-- C6 (the code at width 4, height 4): `x_bits = y_bits = 2`, and both masks
are 3, so they overlap and `x_mask` is not the run of two ones placed at
offset 4 (which is 48); on the register value 48 the code extracts `x = 0`,
whereas shifting by that offset would extract 3. -/
theorem mask_layout_4_4 :
    find_power 4 = some 2 ∧ make_x_mask 2 = some 3 ∧ make_y_mask 2 = some 3 ∧
      (3 &&& 3 : Nat) ≠ 0 ∧ ((2 ^ 2 - 1) <<< 4 : Nat) = 48 ∧
      extract_x 3 48 = 0 ∧ ((48 >>> 4) % 2 ^ 2 : Nat) = 3 := by
  decide

/-- C9: for every width in `(256, 512]` and height in `(128, 256]` (so
`x_bits = 9`, `y_bits = 8`, the classic 320 x 200 included) the finished run
prints no pair twice, prints exactly the cells of `[0,width) x [0,height)`
other than `(0, 0)`, hence `width * height - 1` pairs, and never `(0, 0)`. -/
theorem classic_grid (res_x res_y : Int) (fuel : Nat)
    (hx : 256 < res_x) (hx' : res_x ≤ 512) (hy : 128 < res_y) (hy' : res_y ≤ 256)
    (hf : 131071 ≤ fuel) :
    find_power res_x = some 9 ∧ find_power res_y = some 8 ∧
      ∃ l, main res_x res_y true fuel = Outcome.finished l ∧ l.Nodup ∧
        (∀ x y : Nat, (x, y) ∈ l ↔ ((x : Int) < res_x ∧ (y : Int) < res_y ∧ (x, y) ≠ (0, 0))) ∧
        (l.length : Int) = res_x * res_y - 1 ∧ (0, 0) ∉ l := by
  have hxb : find_power res_x = some 9 :=
    find_power_eq res_x 9 (by norm_num) (fun _ => by norm_num; omega) (by norm_num; omega)
  have hyb : find_power res_y = some 8 :=
    find_power_eq res_y 8 (by norm_num) (fun _ => by norm_num; omega) (by norm_num; omega)
  have hmain := main_of_masks (by omega) (by omega) (by omega) (by omega) hxb hyb
    (by rfl : make_x_mask 9 = some 130816) (by rfl : make_y_mask 8 = some 255) fuel
  rw [if_pos hf] at hmain
  refine ⟨hxb, hyb, _, hmain, emitted_classic_nodup _ _, mem_emitted_classic hx' hy', ?_, ?_⟩
  · obtain ⟨W, rfl⟩ : ∃ W : Nat, res_x = (W : Int) := ⟨res_x.toNat, by omega⟩
    obtain ⟨H, rfl⟩ : ∃ H : Nat, res_y = (H : Int) := ⟨res_y.toNat, by omega⟩
    have hW : 256 < W := by exact_mod_cast hx
    have hH : 128 < H := by exact_mod_cast hy
    rw [emitted_classic_length W H (by exact_mod_cast hx') (by exact_mod_cast hy')
      (by omega) (by omega)]
    have hpos : 1 ≤ W * H := Nat.one_le_iff_ne_zero.2 (Nat.mul_ne_zero (by omega) (by omega))
    push_cast [Nat.cast_sub hpos]
    ring
  · intro h0
    exact ((mem_emitted_classic hx' hy' 0 0).1 h0).2.2 rfl

/-- Witness for C9 at the classic 320 x 200. -/
theorem classic_grid_witness :
    find_power 320 = some 9 ∧ find_power 200 = some 8 ∧
      ∃ l, main 320 200 true 131071 = Outcome.finished l ∧ l.Nodup ∧
        (∀ x y : Nat, (x, y) ∈ l ↔ ((x : Int) < 320 ∧ (y : Int) < 200 ∧ (x, y) ≠ (0, 0))) ∧
        (l.length : Int) = 320 * 200 - 1 ∧ (0, 0) ∉ l :=
  classic_grid 320 200 131071 (by norm_num) (by norm_num) (by norm_num) (by norm_num)
    (le_refl _)

end Fizzlefade
